import Mathlib

/-!
Verification of the goose repository slice: the `Conversation` streaming
accumulator (`crates/goose/src/conversation.rs`) and the UltraThink
file-backed record store (`crates/goose-mcp/src/ultrathink/mod.rs`).
All definitions are shallow embeddings of the Rust source; filesystem
state is modelled as an explicit association list from file path to
content, and JSON tool arguments as an inductive value type.
-/

namespace Goose

/-- Content block of a message. The source's `MessageContent` has a `Text`
variant plus several other variants that the merge logic treats opaquely
and passes through unmodified; the latter are modelled by `other`. -/
inductive MessageContent where
  | text (text : String)
  | other (payload : Nat)
deriving DecidableEq, Repr

/-- A message: an optional identity token and ordered content blocks
(`Message` in the source, with the fields the accumulator inspects). -/
structure Message where
  id : Option Nat
  content : List MessageContent
deriving DecidableEq, Repr

/-- `Conversation` from `conversation.rs`: an ordered sequence of messages. -/
structure Conversation where
  messages : List Message
deriving DecidableEq, Repr

/-- The merge performed by `push_message` when the tail message's identity
matches the incoming message's identity: if the tail's final block and the
incoming sole block are both `Text`, concatenate the text in place;
otherwise append all incoming blocks onto the tail's content. -/
def mergeInto (last incoming : Message) : Message :=
  match last.content.getLast?, incoming.content.getLast? with
  | some (MessageContent.text lt), some (MessageContent.text nt) =>
    if incoming.content.length = 1 then
      { last with content := last.content.dropLast ++ [MessageContent.text (lt ++ nt)] }
    else
      { last with content := last.content ++ incoming.content }
  | _, _ => { last with content := last.content ++ incoming.content }

/-- `Conversation::push_message`: merge into the tail when the tail exists
and has a non-null identity equal to the incoming message's identity,
otherwise push the message as a new tail element. -/
def Conversation.push_message (c : Conversation) (message : Message) : Conversation :=
  match c.messages.getLast? with
  | some last =>
    if last.id.isSome ∧ last.id = message.id then
      ⟨c.messages.dropLast ++ [mergeInto last message]⟩
    else
      ⟨c.messages ++ [message]⟩
  | none => ⟨c.messages ++ [message]⟩

/-- `Conversation::push` delegates to `push_message`. -/
def Conversation.push (c : Conversation) (message : Message) : Conversation :=
  c.push_message message

/-- `Conversation::extend`: push each message in order. -/
def Conversation.extend (c : Conversation) (ms : List Message) : Conversation :=
  ms.foldl Conversation.push_message c

/-- `Conversation::pop`: remove and return the tail element. -/
def Conversation.pop (c : Conversation) : Conversation × Option Message :=
  (⟨c.messages.dropLast⟩, c.messages.getLast?)

/-- `Conversation::truncate`: retain only the first `len` messages. -/
def Conversation.truncate (c : Conversation) (len : Nat) : Conversation :=
  ⟨c.messages.take len⟩

/-- `Conversation::clear`: empty the sequence. -/
def Conversation.clear (_c : Conversation) : Conversation := ⟨[]⟩

/-- `Conversation::len`. -/
def Conversation.len (c : Conversation) : Nat := c.messages.length

/-- `Conversation::is_empty`. -/
def Conversation.is_empty (c : Conversation) : Bool := c.messages.isEmpty

/-- `Conversation::last`. -/
def Conversation.lastMsg (c : Conversation) : Option Message := c.messages.getLast?

/-- `Conversation::first`. -/
def Conversation.firstMsg (c : Conversation) : Option Message := c.messages.head?

/-- The error type `InvalidConversation` from the source. -/
structure InvalidConversation where
  reason : String
  conversation : Conversation

/-- `Conversation::new_unvalidated`: collect the messages with no checks. -/
def Conversation.new_unvalidated (messages : List Message) : Conversation :=
  ⟨messages⟩

/-- `Conversation::validate`: the source performs no checks and returns
`Ok(self)` unconditionally. -/
def Conversation.validate (c : Conversation) : Except InvalidConversation Conversation :=
  Except.ok c

/-- `Conversation::new`: `new_unvalidated` followed by `validate`. -/
def Conversation.new (messages : List Message) :
    Except InvalidConversation Conversation :=
  (Conversation.new_unvalidated messages).validate

/-- C2: starting from an empty conversation, pushing `Text a` and then
`Text b` under the same non-null identity `i` yields one message whose
content is the single block `Text (a ++ b)`. -/
theorem c2_push_message_text_merge (i : Nat) (a b : String) :
    Conversation.push_message
        (Conversation.push_message ⟨[]⟩ ⟨some i, [MessageContent.text a]⟩)
        ⟨some i, [MessageContent.text b]⟩ =
      ⟨[⟨some i, [MessageContent.text (a ++ b)]⟩]⟩ := by
  simp [Conversation.push_message, mergeInto]

/-- Atomic view of content used to compare block sequences up to `Text`
block boundaries: a `Text` block contributes its characters, any other
block contributes itself. -/
inductive Atom where
  | ch (c : Char)
  | blk (payload : Nat)
deriving DecidableEq, Repr

/-- Flatten a block sequence to atoms: `Text` blocks dissolve into their
characters, other blocks are kept as single atoms. -/
def flattenContent : List MessageContent → List Atom
  | [] => []
  | MessageContent.text s :: rest => s.data.map Atom.ch ++ flattenContent rest
  | MessageContent.other k :: rest => Atom.blk k :: flattenContent rest

/-- All content blocks of a conversation, in order. -/
def conversationContent (c : Conversation) : List MessageContent :=
  (c.messages.map Message.content).flatten

theorem flattenContent_append (xs ys : List MessageContent) :
    flattenContent (xs ++ ys) = flattenContent xs ++ flattenContent ys := by
  induction xs with
  | nil => rfl
  | cons x xs ih => cases x <;> simp [flattenContent, ih]

theorem mergeInto_id (last incoming : Message) :
    (mergeInto last incoming).id = last.id := by
  unfold mergeInto
  split <;> (try split) <;> rfl

theorem push_message_nil (m : Message) :
    Conversation.push_message ⟨[]⟩ m = ⟨[m]⟩ := rfl

theorem push_message_concat (ys : List Message) (last m : Message) :
    Conversation.push_message ⟨ys ++ [last]⟩ m =
      if last.id.isSome ∧ last.id = m.id then ⟨ys ++ [mergeInto last m]⟩
      else ⟨(ys ++ [last]) ++ [m]⟩ := by
  unfold Conversation.push_message
  simp only [List.getLast?_concat, List.dropLast_concat]

theorem flattenContent_mergeInto (i : Nat) (c1 c2 : List MessageContent) :
    flattenContent (mergeInto ⟨some i, c1⟩ ⟨some i, c2⟩).content =
      flattenContent (c1 ++ c2) := by
  unfold mergeInto
  split
  · case _ lt nt h1 h2 =>
    split
    · case _ hlen =>
      simp only at h1 h2 hlen
      rcases List.length_eq_one.mp hlen with ⟨x, rfl⟩
      simp only [List.getLast?_singleton, Option.some.injEq] at h2
      subst h2
      rcases List.getLast?_eq_some_iff.mp h1 with ⟨ys, rfl⟩
      simp [List.dropLast_concat, flattenContent_append, flattenContent]
    · rfl
  · rfl

/-- C3 counterexample: the fully-formed message `[Text "a", Text "b"]`
pushed whole keeps two blocks, while pushed as the identity-matching
fragments `[Text "a"]` then `[Text "b"]` it is coalesced into the single
block `[Text "ab"]` — the final contents are not equal. -/
theorem c3_counterexample_split_content_differs :
    ¬ ((Conversation.push_message ⟨[]⟩
          ⟨some 1, [MessageContent.text "a", MessageContent.text "b"]⟩).messages.map
            Message.content =
        (Conversation.push_message
            (Conversation.push_message ⟨[]⟩ ⟨some 1, [MessageContent.text "a"]⟩)
            ⟨some 1, [MessageContent.text "b"]⟩).messages.map Message.content) := by
  decide

/-- C3 amended: pushing a fully-formed message with non-null identity onto
a fresh accumulator, and pushing any two-fragment split of its content
(both fragments carrying that identity) onto a fresh accumulator, each
yield a single message, and the two final contents are equal after
flattening `Text` blocks to their characters — i.e. equal up to the
coalescing of an adjacent Text–Text pair at the split point. -/
theorem c3_amended_split_flatten (i : Nat) (c1 c2 : List MessageContent) :
    (Conversation.push_message ⟨[]⟩ ⟨some i, c1 ++ c2⟩).messages.length = 1 ∧
    (Conversation.push_message (Conversation.push_message ⟨[]⟩ ⟨some i, c1⟩)
        ⟨some i, c2⟩).messages.length = 1 ∧
    flattenContent (conversationContent
        (Conversation.push_message ⟨[]⟩ ⟨some i, c1 ++ c2⟩)) =
      flattenContent (conversationContent
        (Conversation.push_message (Conversation.push_message ⟨[]⟩ ⟨some i, c1⟩)
          ⟨some i, c2⟩)) := by
  rw [push_message_nil, push_message_nil]
  have h2 : Conversation.push_message ⟨[⟨some i, c1⟩]⟩ ⟨some i, c2⟩ =
      ⟨[mergeInto ⟨some i, c1⟩ ⟨some i, c2⟩]⟩ := by
    have := push_message_concat [] ⟨some i, c1⟩ ⟨some i, c2⟩
    simpa using this
  rw [h2]
  refine ⟨rfl, rfl, ?_⟩
  simp [conversationContent, flattenContent_mergeInto]

/-- Two consecutive messages are acceptable when they do not share a
non-null identity (the condition under which `push_message` would have
merged them instead of storing them adjacently). -/
def okPair (a b : Message) : Prop := ¬(a.id.isSome ∧ a.id = b.id)

/-- One accumulator operation from the `Conversation` public surface. -/
inductive AccOp where
  | pushMsg (m : Message)
  | pushOp (m : Message)
  | popOp
  | truncateOp (n : Nat)
  | clearOp
  | extendOp (ms : List Message)

/-- Apply one accumulator operation. -/
def applyOp (c : Conversation) : AccOp → Conversation
  | AccOp.pushMsg m => c.push_message m
  | AccOp.pushOp m => c.push m
  | AccOp.popOp => (c.pop).1
  | AccOp.truncateOp n => c.truncate n
  | AccOp.clearOp => c.clear
  | AccOp.extendOp ms => c.extend ms

/-- Run a sequence of accumulator operations from the empty conversation. -/
def applyOps (ops : List AccOp) : Conversation :=
  ops.foldl applyOp ⟨[]⟩

theorem okPair_of_id_eq {a b b' : Message} (h : b'.id = b.id) (hab : okPair a b) :
    okPair a b' := by
  unfold okPair at hab ⊢
  rw [h]
  exact hab

theorem chain'_push_message {c : Conversation}
    (h : List.Chain' okPair c.messages) (m : Message) :
    List.Chain' okPair (c.push_message m).messages := by
  rcases List.eq_nil_or_concat c.messages with hnil | ⟨ys, last, hys⟩
  · obtain ⟨ms⟩ := c
    simp only at hnil
    subst hnil
    rw [push_message_nil]
    exact List.chain'_singleton m
  · obtain ⟨ms⟩ := c
    simp only at hys h
    subst hys
    rw [List.concat_eq_append] at h ⊢
    rw [push_message_concat]
    rcases List.chain'_append.mp h with ⟨h1, _, h3⟩
    split
    · case _ hc =>
      refine List.Chain'.append h1 (List.chain'_singleton _) ?_
      intro x hx y hy
      simp only [List.head?_cons, Option.mem_def, Option.some.injEq] at hy
      subst hy
      exact okPair_of_id_eq (mergeInto_id last m) (h3 x hx last rfl)
    · case _ hc =>
      refine List.Chain'.append h (List.chain'_singleton _) ?_
      intro x hx y hy
      simp only [List.getLast?_concat, Option.mem_def, Option.some.injEq] at hx
      simp only [List.head?_cons, Option.mem_def, Option.some.injEq] at hy
      subst hx
      subst hy
      exact hc

theorem chain'_extend {c : Conversation}
    (h : List.Chain' okPair c.messages) (ms : List Message) :
    List.Chain' okPair (c.extend ms).messages := by
  induction ms generalizing c with
  | nil => exact h
  | cons m ms ih =>
    show List.Chain' okPair (((c.push_message m)).extend ms).messages
    exact ih (chain'_push_message h m)

/-- C4: after any sequence of accumulator operations (`push_message`,
`push`, `extend`, `pop`, `truncate`, `clear`) starting from the empty
conversation, no two adjacent messages share a non-null identity.
(Every prefix of the sequence is itself such a sequence, so the invariant
holds after every intermediate step as well.) -/
theorem c4_no_adjacent_shared_identity (ops : List AccOp) :
    List.Chain' okPair (applyOps ops).messages := by
  have main : ∀ (ops : List AccOp) (c : Conversation),
      List.Chain' okPair c.messages →
        List.Chain' okPair (ops.foldl applyOp c).messages := by
    intro ops
    induction ops with
    | nil => intro c h; exact h
    | cons op ops ih =>
      intro c h
      refine ih _ ?_
      cases op with
      | pushMsg m => exact chain'_push_message h m
      | pushOp m => exact chain'_push_message h m
      | popOp => exact h.init
      | truncateOp n => exact h.take n
      | clearOp => exact List.chain'_nil
      | extendOp ms => exact chain'_extend h ms
  exact main ops ⟨[]⟩ List.chain'_nil

/-- C10: `Conversation::new` returns `Ok` for every input — `validate`
performs no checks — so a conversation with two adjacent messages sharing
the same non-null identity can be constructed directly via `new`; the
adjacency invariant is enforced only by `push_message`, not at
construction. -/
theorem c10_new_always_ok :
    (∀ ms : List Message, Conversation.new ms = Except.ok ⟨ms⟩) ∧
      (Conversation.new
            [⟨some 1, [MessageContent.text "x"]⟩, ⟨some 1, [MessageContent.text "y"]⟩] =
          Except.ok
            ⟨[⟨some 1, [MessageContent.text "x"]⟩, ⟨some 1, [MessageContent.text "y"]⟩]⟩ ∧
        ¬ List.Chain' okPair
            [⟨some 1, [MessageContent.text "x"]⟩, ⟨some 1, [MessageContent.text "y"]⟩]) := by
  refine ⟨fun ms => rfl, rfl, ?_⟩
  intro h
  rcases List.chain'_cons.mp h with ⟨hpair, _⟩
  exact hpair ⟨rfl, rfl⟩

/-! ## RecordStore: the UltraThink file-backed memory store -/

/-- Insert with replacement: the model of `HashMap::insert`, which replaces
any existing value stored under the key. -/
def insertKey {α : Type} : List (String × α) → String → α → List (String × α)
  | [], k, v => [(k, v)]
  | (k', v') :: rest, k, v =>
    if k' = k then (k, v) :: rest else (k', v') :: insertKey rest k v

/-- Append-or-create: the model of
`HashMap::entry(k).or_insert_with(Vec::new).extend(v)`. -/
def extendKey :
    List (String × List String) → String → List String → List (String × List String)
  | [], k, v => [(k, v)]
  | (k', v') :: rest, k, v =>
    if k' = k then (k', v' ++ v) :: rest else (k', v') :: extendKey rest k v

/-- The filesystem visible to the store: an association list from file path
to file content. -/
structure FS where
  files : List (String × String)
deriving DecidableEq, Repr

/-- Content of the file at `path`, if it exists. -/
def FS.lookupFile (fs : FS) (path : String) : Option String :=
  fs.files.lookup path

/-- Open `path` in append-plus-create mode and write `text` at the end. -/
def FS.appendFile (fs : FS) (path text : String) : FS :=
  match fs.files.lookup path with
  | some old => ⟨insertKey fs.files path (old ++ text)⟩
  | none => ⟨fs.files ++ [(path, text)]⟩

/-- `UltraThinkRouter::get_memory_file`: the category file is
`<base>/<category>.txt` where the base is the global or local memory
directory; base-directory resolution is an external concern, so the two
bases are modelled as fixed distinct path prefixes. -/
def get_memory_file (category : String) (is_global : Bool) : String :=
  (if is_global then "global" else "local") ++ "/" ++ category ++ ".txt"

/-- Model of `Vec<&str>::join(" ")`. -/
def joinSpace : List String → String
  | [] => ""
  | [t] => t
  | t :: rest => t ++ " " ++ joinSpace rest

/-- `UltraThinkRouter::remember`: one append-mode write of a record — a tag
line (`# ` plus the tags joined by single spaces) only when `tags` is
non-empty, then `data` followed by a blank line
(`writeln!` of the format `"..\n"` appends `data ++ "\n\n"`). Directory
creation and file open are modelled as always succeeding; their `Io`
failures are environmental and outside the model. -/
def remember (fs : FS) (category data : String) (tags : List String)
    (is_global : Bool) : FS :=
  let path := get_memory_file category is_global
  let tagLine := if tags.isEmpty then "" else "# " ++ joinSpace tags ++ "\n"
  fs.appendFile path (tagLine ++ data ++ "\n" ++ "\n")

/-- Model of Rust `str::split("\n\n")`: cut at every leftmost,
non-overlapping occurrence of a double newline; `acc` holds the characters
of the current piece in reverse. -/
def splitRecords : List Char → List Char → List (List Char)
  | [], acc => [acc.reverse]
  | '\n' :: '\n' :: rest, acc => acc.reverse :: splitRecords rest []
  | c :: rest, acc => splitRecords rest (c :: acc)

/-- Finish one line held in reverse in `acc`, stripping the `\r` of a
`\r\n` line ending. -/
def lineOfAcc : List Char → List Char
  | '\r' :: acc => acc.reverse
  | acc => acc.reverse

/-- Model of Rust `str::lines()`: split at `\n` (a preceding `\r` is
stripped), and a trailing line terminator produces no final empty line. -/
def rustLinesAux : List Char → List Char → List (List Char)
  | [], acc => if acc.isEmpty then [] else [acc.reverse]
  | '\n' :: rest, acc => lineOfAcc acc :: rustLinesAux rest []
  | c :: rest, acc => rustLinesAux rest (c :: acc)

/-- The lines of one record entry, as `entry.lines()` yields them. -/
def rustLines (entry : List Char) : List (List Char) :=
  rustLinesAux entry []

/-- Model of Rust `str::split_whitespace()`: maximal non-whitespace runs,
with no empty tokens. -/
def splitWhitespaceAux : List Char → List Char → List (List Char)
  | [], acc => if acc.isEmpty then [] else [acc.reverse]
  | c :: rest, acc =>
    if c.isWhitespace then
      if acc.isEmpty then splitWhitespaceAux rest []
      else acc.reverse :: splitWhitespaceAux rest []
    else splitWhitespaceAux rest (c :: acc)

/-- The per-entry body of the parse loop in `UltraThinkRouter::retrieve`:
when the entry's first line starts with the `#` marker, the rest of that
line splits into whitespace-separated tag tokens whose space-join is the
tag-key, and the remaining lines are stored with a replacing
`HashMap::insert`; otherwise all of the entry's lines extend the
`untagged` bucket. An entry with no lines is skipped. -/
def parseEntry (memories : List (String × List String)) (entry : List Char) :
    List (String × List String) :=
  match rustLines entry with
  | [] => memories
  | firstLine :: restLines =>
    match firstLine with
    | '#' :: stripped =>
      let tags := splitWhitespaceAux stripped []
      insertKey memories (String.mk (List.intercalate [' '] tags))
        (restLines.map String.mk)
    | _ =>
      extendKey memories "untagged" ((firstLine :: restLines).map String.mk)

/-- The full parse performed by `retrieve` on a category file's content:
split on the double-newline record separator and fold every entry into the
mapping. -/
def parseMemories (content : String) : List (String × List String) :=
  (splitRecords content.data []).foldl parseEntry []

/-- The kinds of `std::io::Error` the store distinguishes. -/
inductive IoErrorKind where
  | invalidInput
  | otherKind
deriving DecidableEq, Repr

/-- An `std::io::Error`: a kind plus its message. -/
structure IoError where
  kind : IoErrorKind
  message : String
deriving DecidableEq, Repr

/-- `UltraThinkRouter::retrieve`: the empty mapping when the category file
does not exist, otherwise the parsed view of the file's content. Reading
an existing file is modelled as always succeeding; `Io` failures are
environmental and outside the model. -/
def retrieve (fs : FS) (category : String) (is_global : Bool) :
    Except IoError (List (String × List String)) :=
  match fs.lookupFile (get_memory_file category is_global) with
  | none => Except.ok []
  | some content => Except.ok (parseMemories content)

/-- Minimal model of `serde_json::Value` for tool arguments. -/
inductive Json where
  | null
  | bool (b : Bool)
  | num (n : Int)
  | str (s : String)
  | arr (elems : List Json)
  | obj (fields : List (String × Json))

/-- `Value::get` on an object: the field's value, if present. -/
def Json.get? : Json → String → Option Json
  | Json.obj fields, k => fields.lookup k
  | _, _ => none

/-- `serde_json` indexing (`args[k]`): `Null` when absent or not an object. -/
def Json.index (j : Json) (k : String) : Json :=
  (j.get? k).getD Json.null

/-- `Value::as_str`. -/
def Json.asStr : Json → Option String
  | Json.str s => some s
  | _ => none

/-- `Value::as_bool`. -/
def Json.asBool : Json → Option Bool
  | Json.bool b => some b
  | _ => none

/-- The parsed tool arguments (`UltraThinkArgs` in the source). -/
structure UltraThinkArgs where
  category : String
  data : Option String
  tags : List String
  is_global : Bool

/-- `UltraThinkArgs::from_value`: the category must be present as a string
and non-empty; `data`, `tags` and `is_global` are read leniently. -/
def UltraThinkArgs.from_value (args : Json) : Except IoError UltraThinkArgs :=
  match (args.index "category").asStr with
  | none => Except.error ⟨IoErrorKind.invalidInput, "Category must be a string"⟩
  | some category =>
    if category.isEmpty then
      Except.error ⟨IoErrorKind.invalidInput, "Category cannot be empty"⟩
    else
      let data := (args.get? "data").bind Json.asStr
      let tags :=
        match args.index "tags" with
        | Json.arr elems => elems.filterMap Json.asStr
        | Json.str s => [s]
        | _ => []
      let is_global := ((args.get? "is_global").bind Json.asBool).getD false
      Except.ok ⟨category, data, tags, is_global⟩

/-- The `ultrathink_remember` arm of `execute_tool_call`: parse the
arguments (validating the category) and only then perform the write. -/
def execute_remember (fs : FS) (args : Json) : Except IoError (FS × String) :=
  match UltraThinkArgs.from_value args with
  | Except.error e => Except.error e
  | Except.ok a =>
    Except.ok (remember fs a.category (a.data.getD "") a.tags a.is_global,
      "📝 UltraThink memory stored in category: " ++ a.category)

deriving instance DecidableEq for Except

/-- C1, evaluated at the failing input: after appending tag-key `t` with
line `p` and then tag-key `t` with line `q`, `retrieve` returns a mapping
whose `t` bucket is `[q]` alone — the earlier record's lines are dropped,
because the parse loop stores tagged records with a replacing insert.
The claim (and spec §4.1/§9) requires the bucket `[p, q]`. -/
theorem c1_same_tag_key_overwrites :
    retrieve (remember (remember ⟨[]⟩ "notes" "p" ["t"] false) "notes" "q" ["t"] false)
        "notes" false = Except.ok [("t", ["q"])] ∧
      retrieve (remember (remember ⟨[]⟩ "notes" "p" ["t"] false) "notes" "q" ["t"] false)
          "notes" false ≠ Except.ok [("t", ["p", "q"])] := by
  constructor <;> decide

/-- C5: round trip on an initially absent category file: appending tags
`a b` with the two lines `l1`, `l2` and reading the category back yields
exactly the mapping with the single bucket `a b` holding `l1`, `l2`; the
serialization writes no tag line when `tags` is empty and writes
`# a b` followed by the data and a blank line when it is not. -/
theorem c5_round_trip :
    retrieve (remember ⟨[]⟩ "proj" "l1\nl2" ["a", "b"] false) "proj" false =
        Except.ok [("a b", ["l1", "l2"])] ∧
      remember ⟨[]⟩ "proj" "d" [] false = ⟨[("local/proj.txt", "d\n\n")]⟩ ∧
      remember ⟨[]⟩ "proj" "d" ["a", "b"] false =
        ⟨[("local/proj.txt", "# a b\nd\n\n")]⟩ := by
  refine ⟨?_, ?_, ?_⟩ <;> decide

/-- C6, evaluated at the failing input: an untagged record followed by a
tagged record whose tag-key is literally `untagged` — the tagged record's
replacing insert drops the untagged record's line, and the bucket reads
back `[z]` instead of holding both records' lines. The claim's
two-untagged-appends example itself does hold (second conjunct). -/
theorem c6_untagged_bucket_overwritten :
    retrieve (remember (remember ⟨[]⟩ "cat" "x" [] false) "cat" "z" ["untagged"] false)
        "cat" false = Except.ok [("untagged", ["z"])] ∧
      retrieve (remember (remember ⟨[]⟩ "cat" "x" [] false) "cat" "y" [] false)
          "cat" false = Except.ok [("untagged", ["x", "y"])] := by
  constructor <;> decide

/-- C7: for every category whose backing file does not exist, `retrieve`
returns `Ok` with the empty mapping, not an error. -/
theorem c7_missing_category_empty (fs : FS) (category : String) (is_global : Bool)
    (h : fs.lookupFile (get_memory_file category is_global) = none) :
    retrieve fs category is_global = Except.ok [] := by
  unfold retrieve
  rw [h]

/-- Witness for C7 at the concrete empty filesystem and category `nope`. -/
theorem c7_missing_category_empty_witness :
    FS.lookupFile ⟨[]⟩ (get_memory_file "nope" false) = none ∧
      retrieve ⟨[]⟩ "nope" false = Except.ok [] :=
  ⟨rfl, c7_missing_category_empty ⟨[]⟩ "nope" false rfl⟩

/-- C8: for the empty category name the remember tool call fails
immediately with the `InvalidInput` error `Category cannot be empty`;
argument validation runs before any write, so no filesystem state is
produced. For any non-empty category name the call never produces that
error: it succeeds outright. -/
theorem c8_empty_category_invalid_input :
    (∀ (fs : FS) (args : Json), args.index "category" = Json.str "" →
        execute_remember fs args =
          Except.error ⟨IoErrorKind.invalidInput, "Category cannot be empty"⟩) ∧
      (∀ (fs : FS) (args : Json) (cat : String), args.index "category" = Json.str cat →
        cat ≠ "" → (execute_remember fs args).isOk = true) := by
  constructor
  · intro fs args h
    unfold execute_remember UltraThinkArgs.from_value
    rw [h]
    rfl
  · intro fs args cat h hne
    unfold execute_remember UltraThinkArgs.from_value
    rw [h]
    simp only [Json.asStr]
    rw [if_neg (by simpa [String.isEmpty_iff] using hne)]
    rfl

/-- Witness for C8 at concrete argument objects with empty and non-empty
category strings. -/
theorem c8_empty_category_invalid_input_witness :
    execute_remember ⟨[]⟩ (Json.obj [("category", Json.str "")]) =
        Except.error ⟨IoErrorKind.invalidInput, "Category cannot be empty"⟩ ∧
      (execute_remember ⟨[]⟩ (Json.obj [("category", Json.str "p")])).isOk = true :=
  ⟨c8_empty_category_invalid_input.1 ⟨[]⟩ _ rfl,
   c8_empty_category_invalid_input.2 ⟨[]⟩ _ "p" rfl (by decide)⟩

/-- C9: reading is total and lenient in the model: `retrieve` always
returns `Ok` (only environmental `Io` failures, outside the model, could
fail it — never a parse error); malformed content degrades gracefully: a
tag line with no following content yields that tag-key with an empty
bucket while runs of blank lines yield empty segments that are skipped,
and a lone extra newline yields a best-effort empty content line. -/
theorem c9_parse_total_and_lenient :
    (∀ (fs : FS) (category : String) (is_global : Bool),
        ∃ m, retrieve fs category is_global = Except.ok m) ∧
      parseMemories "# t\n\n\n\nx" = [("t", []), ("untagged", ["x"])] ∧
      parseMemories "a\n\n\nb" = [("untagged", ["a", "", "b"])] := by
  refine ⟨?_, by decide, by decide⟩
  intro fs category g
  unfold retrieve
  cases fs.lookupFile (get_memory_file category g) with
  | none => exact ⟨[], rfl⟩
  | some content => exact ⟨parseMemories content, rfl⟩

end Goose
